import Mathlib

set_option maxRecDepth 8000

/-
Verification of the core algorithms of the Performance-Checks repository
(src/graphs.py and src/notifier.py): the producer invocation path of the
chart feed, the rolling sample buffer with its eviction and auto-range
policy, the animation tick, the conditional-notification polling loop, the
periodic summary message builder, the log-stream routing and the logger
construction.  Python floats are modelled by rationals; Python dynamic
values are modelled by small inductive value domains.
-/

/- ### Value domain for graphs.get_data (src/graphs.py lines 27-31) -/

/-- Python values relevant to graphs.get_data: a numeric result, a coroutine
object (an awaitable that would yield a numeric result when awaited), and a
callable returning one of these when invoked. -/
inductive PyVal where
  | num (x : ℚ)
  | coro (result : ℚ)
  | func (ret : PyVal)
  deriving DecidableEq

/-- asyncio.iscoroutine: true exactly on coroutine objects (never on plain
functions or lambdas). -/
def iscoroutine : PyVal → Bool
  | .coro _ => true
  | _ => false

/-- Calling a Python value: defined exactly when the value is callable. -/
def pyCall : PyVal → Option PyVal
  | .func r => some r
  | _ => none

/-- graphs.get_data, translated from src/graphs.py lines 27-31:

    data = func()
    if asyncio.iscoroutine(func):
        await data
    return data

The iscoroutine test is applied to func itself (not to data), and even when
the branch is taken the awaited value is discarded: the function returns
data unchanged in every case. -/
def get_data (func : PyVal) : Option PyVal := do
  let data ← pyCall func
  if iscoroutine func then
    -- the source awaits data here but discards the result of the await
    pure data
  else
    pure data

/- ### The rolling sample buffer of graphs.update_line_data (lines 58-78) -/

/-- One registered (buffer, producer) pair, mirroring graphs.LineData.  The
producer is modelled by the sequence of values it returns, indexed by how
many times it has been invoked so far (producerCalls); matplotlib objects
(line, plot) are represented only through the axis limits the source sets on
them. -/
structure LineData where
  producer : Nat → ℚ
  producerCalls : Nat
  x_data : List ℚ
  y_data : List ℚ
  first_iteration_timestamp : Option ℚ
  dynamic_y_axis : Bool
  y_lim : Option (ℚ × ℚ)
  x_lim : Option (ℚ × ℚ)

/-- The buffer step of graphs.update_line_data lines 64-69, abstracted over
the capacity (hard-coded to 15 in the source) and the element type: append
the new sample, then evict the oldest sample when the length exceeds the
capacity. -/
def recordEvict (C : Nat) (buf : List α) (s : α) : List α :=
  let b := buf ++ [s]
  if b.length > C then b.tail else b

/-- The buffer contents after a sequence of record operations starting from
an empty buffer of capacity C. -/
def bufferAfter (C : Nat) (samples : List α) : List α :=
  samples.foldl (recordEvict C) []

/-- graphs.update_line_data (lines 58-78), with the current monotonic time
supplied as an argument: set the first-iteration timestamp if unset, invoke
the producer once, append the sample (elapsed offset, produced value), evict
the oldest sample past 15, recompute the y limits from the buffer when the
axis is dynamic, and widen the x limits once at least two samples exist.
Python min()/max() over an empty sequence raise; that case is represented by
none and is unreachable here because the buffer always retains the sample
appended in the same call. -/
def update_line_data (now : ℚ) (ld : LineData) : LineData :=
  let first := ld.first_iteration_timestamp.getD now
  let y_val := ld.producer ld.producerCalls
  let x1 := ld.x_data ++ [now - first]
  let y1 := ld.y_data ++ [y_val]
  let x2 := if x1.length > 15 then x1.tail else x1
  let y2 := if x1.length > 15 then y1.tail else y1
  let yl :=
    if ld.dynamic_y_axis then
      match y2 with
      | [] => none
      | y :: ys => some (ys.foldl min y, ys.foldl max y)
    else ld.y_lim
  let xl :=
    if x2.length > 1 then some (x2.headD 0, (x2.getLast?).getD 0) else ld.x_lim
  { ld with
    first_iteration_timestamp := some first
    producerCalls := ld.producerCalls + 1
    x_data := x2
    y_data := y2
    y_lim := yl
    x_lim := xl }

/-- One iteration of graphs.animation_loop (lines 84-94) up to the
canvas.draw() call.  For each registered pair the source first schedules
update_line_data as a task via asyncio.create_task and then awaits a second,
fresh update_line_data coroutine through asyncio.gather; neither execution
suspends internally (get_data never truly awaits), so both run to completion
while the loop waits on the gather, before canvas.draw().  Net effect per
tick and per pair: two full executions of update_line_data. -/
def animation_tick (now : ℚ) (container : List LineData) : List LineData :=
  container.map (fun ld => update_line_data now (update_line_data now ld))

/-- A freshly registered LineData as built by graphs.create_line_graph with a
fixed y range: empty buffers, no first timestamp, static y axis. -/
def freshLineData (producer : Nat → ℚ) : LineData :=
  { producer := producer
    producerCalls := 0
    x_data := []
    y_data := []
    first_iteration_timestamp := none
    dynamic_y_axis := false
    y_lim := some (0, 100)
    x_lim := none }

/-- The scenario of claim C5: a dynamic-range LineData whose producer returns
its call index, updated at times 0, 1, ..., 20. -/
def c5Run : LineData :=
  ((List.range 21).map (fun t => (t : ℚ))).foldl
    (fun ld t => update_line_data t ld)
    { producer := fun n => (n : ℚ)
      producerCalls := 0
      x_data := []
      y_data := []
      first_iteration_timestamp := none
      dynamic_y_axis := true
      y_lim := none
      x_lim := none }

/- ### The polling loop of Notifier.create_conditional_notification
(src/notifier.py lines 125-154) -/

/-- Model of the coroutine send_conditional_notification (src/notifier.py
lines 134-148).  Time is idealized: the loop body runs instantaneously and
time advances only at the asyncio.sleep calls; asyncio.sleep of a negative
duration behaves as a sleep of zero.  The predicate is modelled as a
function of the current time, fuel bounds the number of loop iterations
considered, and the result is the list of times at which the notification
fires (delivery plus log side effects), in order.  Per the source, a true
poll immediately fires; a one-shot (temporary) watch then breaks out of the
loop, while a repeating watch sleeps delay_interval - check_interval and
then falls through to the common sleep of check_interval. -/
def condLoop (condition : ℚ → Bool) (check_interval delay_interval : ℚ)
    (temporary : Bool) : Nat → ℚ → List ℚ
  | 0, _ => []
  | fuel + 1, t =>
    if condition t then
      if temporary then [t]
      else
        t :: condLoop condition check_interval delay_interval temporary fuel
          (t + max (delay_interval - check_interval) 0 + check_interval)
    else
      condLoop condition check_interval delay_interval temporary fuel
        (t + check_interval)

/-- The predicate of the C1 scenario: becomes true at time 1 and stays true. -/
def c1cond : ℚ → Bool := fun t => decide (1 ≤ t)

/- ### The shutdown protocol of Notifier.stop (src/notifier.py lines 176-181)

Notifier runs one dedicated scheduler thread executing
self._loop.run_forever(); every armed watch is a task on that loop, so every
fire (notification delivery or log append) happens inside that thread while
run_forever is executing.  Notifier.stop cancels the tasks, marshals
self._loop.stop() into the loop via call_soon_threadsafe, and then blocks in
self._thread.join(), which returns only once run_forever has returned and
the thread has terminated.  The model below captures exactly this
interleaving structure; fires are deliberately still allowed after the stop
request has been made (callbacks already queued may still run until
run_forever returns) but require the loop thread to be alive. -/

/-- Scheduler-side state: whether the loop thread is still alive (run_forever
has not returned) and whether loop.stop() has been requested. -/
structure SchedState where
  loopAlive : Bool
  stopRequested : Bool
  deriving DecidableEq

/-- The state right after Notifier.__init__: the scheduler thread is running
and no stop has been requested. -/
def schedInit : SchedState := { loopAlive := true, stopRequested := false }

/-- Observable events of the shutdown protocol. -/
inductive SchedEvent where
  | fire          -- a watch fires: notification delivery or log append in the loop thread
  | stopCalled    -- Notifier.stop is entered: tasks cancelled, loop.stop marshalled
  | loopExited    -- run_forever returns and the scheduler thread terminates
  | stopReturned  -- self._thread.join() returns and Notifier.stop returns
  deriving DecidableEq

/-- One step of the shutdown protocol.  A fire requires the loop thread to be
alive; run_forever returns only after a stop request; join (and hence
Notifier.stop) returns only once the loop thread is dead. -/
inductive SchedStep : SchedState → SchedEvent → SchedState → Prop where
  | fire (s : SchedState) (h : s.loopAlive = true) : SchedStep s .fire s
  | stopCalled (s : SchedState) :
      SchedStep s .stopCalled { s with stopRequested := true }
  | loopExited (s : SchedState) (halive : s.loopAlive = true)
      (hreq : s.stopRequested = true) :
      SchedStep s .loopExited { s with loopAlive := false }
  | stopReturned (s : SchedState) (hdead : s.loopAlive = false) :
      SchedStep s .stopReturned s

/-- A finite execution: a trace of events relating an initial to a final
state. -/
inductive SchedExec : SchedState → List SchedEvent → SchedState → Prop where
  | nil (s : SchedState) : SchedExec s [] s
  | cons {s s₁ s₂ : SchedState} {e : SchedEvent} {es : List SchedEvent} :
      SchedStep s e s₁ → SchedExec s₁ es s₂ → SchedExec s (e :: es) s₂

/- ### Log-stream routing of Notifier._log (src/notifier.py lines 74-92) -/

/-- Everything after the first slash of a character list; the whole list
when no slash occurs (helper for str.partition). -/
def afterFirstSlash : List Char → List Char
  | [] => []
  | c :: cs => if c = '/' then cs else afterFirstSlash cs

/-- The stream-name normalization at the top of Notifier._log (lines 75-76):
when the target contains a slash, keep only what follows the FIRST slash,
i.e. file_name.partition("/")[-1]. -/
def resolveStream (file_name : String) : String :=
  if file_name.toList.contains '/' then String.mk (afterFirstSlash file_name.toList)
  else file_name

/- ### Logger construction of Notifier._create_logger (lines 45-68) -/

/-- A logging.Logger object as constructed by Notifier._create_logger via the
direct constructor logging.Logger(name): it starts with an empty handler
list and no parent.  Handlers are recorded by the path of their log file. -/
structure PyLogger where
  name : String
  handlers : List String
  deriving DecidableEq

/-- logging.Logger.hasHandlers on a directly constructed Logger: such a
logger has parent None, so the walk up the logger hierarchy inspects only
its own handler list. -/
def hasHandlers (lg : PyLogger) : Bool := !lg.handlers.isEmpty

/-- Python str.removesuffix(".log"). -/
def removeLogSuffix (s : String) : String :=
  if s.endsWith ".log" then s.dropRight 4 else s

/-- Notifier._create_logger (lines 45-68): construct a FRESH Logger object,
raise ValueError when hasHandlers() on it is true, then attach one
FileHandler for logs/<file_name> and return the logger.  The raise is
modelled by the error case of Except. -/
def create_logger (file_name : String) : Except String PyLogger :=
  let logger : PyLogger :=
    { name := "notifier." ++ removeLogSuffix file_name, handlers := [] }
  if hasHandlers logger then
    Except.error "Logger already has handlers"
  else
    Except.ok { logger with handlers := ["logs/" ++ file_name] }

/-- Whether a call to Notifier._create_logger raises. -/
def createLoggerRaises (file_name : String) : Bool :=
  match create_logger file_name with
  | Except.error _ => true
  | Except.ok _ => false

/- ### The periodic summary builder Notifier._create_periodic_message
(src/notifier.py lines 94-123) and its log side effects -/

/-- The value returned by a DumpInfo supplier, tagged by the isinstance
branch it takes in _create_periodic_message and carrying its Python
f-string rendering: a str, a scalar (int or float: neither str nor a
Collection), or a Collection of sub-values given by their renderings. -/
inductive SuppliedVal where
  | strv (render : String)
  | scalar (render : String)
  | coll (renders : List String)
  deriving DecidableEq

/-- The unit field of a DumpInfo: None, a plain string, or a nonempty tuple
of strings (given as head and tail, so the empty tuple, on which the source
would crash with IndexError in the str branch, is outside the domain). -/
inductive UnitSpec where
  | absent
  | ustr (u : String)
  | utup (u0 : String) (rest : List String)
  deriving DecidableEq

/-- Python truthiness of a unit value: None and the empty string are falsy;
a nonempty tuple is truthy. -/
def unitTruthy : UnitSpec → Bool
  | .absent => false
  | .ustr u => !(u == "")
  | .utup _ _ => true

/-- Python len() of a unit value: the character count of a string, the
element count of a tuple, and 0 for None (len is only reached behind the
truthiness guard in the source). -/
def unitLen : UnitSpec → Nat
  | .absent => 0
  | .ustr u => u.length
  | .utup u0 rest => (u0 :: rest).length

/-- Python unit[i] rendered into the message: for a string unit this is its
i-th CHARACTER, for a tuple its i-th element.  Only consulted under the
guard unit and i < len(unit). -/
def unitIndex : UnitSpec → Nat → String
  | .absent, _ => ""
  | .ustr u, i => String.singleton (u.toList.getD i ' ')
  | .utup u0 rest, i => (u0 :: rest).getD i ""

/-- An apostrophe, as used by the Python repr of a string. -/
def pyQuote : String := String.singleton (Char.ofNat 39)

/-- The Python f-string rendering of a nonempty tuple of strings (repr),
including the trailing comma of a one-element tuple. -/
def pyTupleRepr (u0 : String) (rest : List String) : String :=
  match rest with
  | [] => "(" ++ pyQuote ++ u0 ++ pyQuote ++ ",)"
  | _ =>
    "(" ++ String.intercalate ", " ((u0 :: rest).map (fun u => pyQuote ++ u ++ pyQuote))
      ++ ")"

/-- The rendering of the expression unit if unit else two-quotes, used when
the source interpolates the whole unit object after a str or scalar value. -/
def unitRenderIfTruthy (u : UnitSpec) : String :=
  if unitTruthy u then
    match u with
    | .absent => ""
    | .ustr s => s
    | .utup u0 rest => pyTupleRepr u0 rest
  else ""

/-- The reassignment at line 106: if isinstance(unit, tuple): unit = unit[0]. -/
def collapseTupleUnit : UnitSpec → UnitSpec
  | .utup u0 _ => .ustr u0
  | u => u

/-- One batch entry, mirroring notifier.DumpInfo; the supplier is modelled by
the value it returns on the fire under consideration. -/
structure DumpInfo where
  message : String
  supplied : SuppliedVal
  log_path : String := ""
  unit : UnitSpec := .absent
  deriving DecidableEq

/-- The sub_message built for one DumpInfo by _create_periodic_message lines
99-116: a str value is concatenated with the (tuple-collapsed) unit when the
unit is truthy; a Collection is joined with the separator, each sub-value
followed by unit[i] when the unit is truthy and i < len(unit); any other
value is concatenated with the whole unit when the unit is truthy. -/
def sub_message (info : DumpInfo) : String :=
  match info.supplied with
  | .strv s =>
    info.message ++ ": " ++ s ++ unitRenderIfTruthy (collapseTupleUnit info.unit)
  | .coll renders =>
    info.message ++ ": " ++ String.intercalate " - "
      (renders.enum.map (fun p =>
        p.2 ++ (if unitTruthy info.unit ∧ p.1 < unitLen info.unit
                then unitIndex info.unit p.1 else "")))
  | .scalar s =>
    info.message ++ ": " ++ s ++ unitRenderIfTruthy info.unit

/-- Assignment into a Python dict: an existing key has its value replaced in
place, a new key is appended at the end (insertion order). -/
def dictInsert (d : List (String × String)) (k v : String) : List (String × String) :=
  if d.any (fun p => p.1 == k) then
    d.map (fun p => if p.1 == k then (k, v) else p)
  else d ++ [(k, v)]

/-- Notifier._create_periodic_message (lines 94-123): starting from an empty
_data_dict (the source clears it first), fold over the batch, appending each
sub_message plus a newline to the composite message and, for entries whose
log_path is truthy (nonempty), writing sub_message -> log_path into the
dict.  Returns (composite message, final _data_dict). -/
def create_periodic_message (data : List DumpInfo) : String × List (String × String) :=
  data.foldl
    (fun acc info =>
      let sub := sub_message info
      (acc.1 ++ sub ++ "\n",
       if info.log_path.isEmpty then acc.2 else dictInsert acc.2 sub info.log_path))
    ("", [])

/-- The log lines produced by one fire of a periodic dispatch armed by
Notifier.periodically_send_data: the notification supplier runs
_create_periodic_message, refilling the shared _data_dict, and then
send_conditional_notification (lines 139-141) iterates the dict, calling
self._log(file_path, message) for each entry; _log resolves the stream name
from the path.  Each resulting line is (logical stream, message). -/
def fire_log_lines (data : List DumpInfo) : List (String × String) :=
  (create_periodic_message data).2.map (fun p => (resolveStream p.2, p.1))

/-- The first DumpInfo of the C7 scenario: label CPU, supplier returning the
int 42, unit percent. -/
def cpuInfo : DumpInfo :=
  { message := "CPU", supplied := .scalar "42", unit := .ustr "%" }

/-- The second DumpInfo of the C7 scenario: label RAM, supplier returning the
pair (3.2, 1.1), unit tuple (GB, GB). -/
def ramInfo : DumpInfo :=
  { message := "RAM", supplied := .coll ["3.2", "1.1"], unit := .utup "GB" ["GB"] }

/-- A DumpInfo with a log target, used to exhibit the collapsing of
identically formatted entries in the _data_dict. -/
def cpuLogged : DumpInfo :=
  { message := "CPU", supplied := .scalar "42", log_path := "cpu.log", unit := .ustr "%" }

/-- The (sub-message, log target) pairs that _create_periodic_message writes
into the _data_dict: one per batch entry with a truthy (nonempty) log_path,
in batch order. -/
def eligiblePairs (data : List DumpInfo) : List (String × String) :=
  (data.filter (fun i => !i.log_path.isEmpty)).map
    (fun i => (sub_message i, i.log_path))

/-- The keys of a Python dict built by repeated assignment: each key in
order of its first assignment, without repetition. -/
def firstKeys (ks : List String) : List String :=
  ks.foldl (fun acc k => if k ∈ acc then acc else acc ++ [k]) []

/-- The value a sequence of dict assignments leaves under a key: the value
of the LAST assignment to that key, when any. -/
def lastValue (ps : List (String × String)) (k : String) : Option String :=
  ((ps.filter (fun p => p.1 == k)).map Prod.snd).getLast?

/- ### Supporting lemmas -/

/-- Everything after the first slash, computed on a list with no slash before
the separator. -/
theorem afterFirstSlash_append (a b : List Char) (h : '/' ∉ a) :
    afterFirstSlash (a ++ '/' :: b) = b := by
  induction a with
  | nil => simp [afterFirstSlash]
  | cons c cs ih =>
    have hc : c ≠ '/' := fun hc => h (hc ▸ List.mem_cons_self c cs)
    simp only [List.cons_append, afterFirstSlash, if_neg hc]
    exact ih (fun hm => h (List.mem_cons_of_mem c hm))

/- ### Claim theorems -/

/-- Claim C6: get_data is claimed to return the produced numeric value for
both synchronous and suspending producers.  It does so for synchronous ones,
but for a suspending producer it returns the coroutine object itself, not
the numeric value the awaitable yields: the iscoroutine test is applied to
the function rather than to its result and the await result is discarded. -/
theorem get_data_returns_unawaited_coroutine :
    get_data (PyVal.func (PyVal.num 5)) = some (PyVal.num 5) ∧
    get_data (PyVal.func (PyVal.coro 5)) = some (PyVal.coro 5) ∧
    PyVal.coro 5 ≠ PyVal.num 5 := by
  refine ⟨rfl, rfl, ?_⟩
  decide

/-- Claim C4: on each tick of the animation loop every producer is claimed to
be invoked exactly once with exactly one sample appended.  Evaluating one
tick on a single freshly registered pair shows the producer is invoked TWICE
and two samples are appended (once through asyncio.create_task and once
through the fresh coroutine passed to asyncio.gather). -/
theorem animation_tick_runs_producer_twice :
    (animation_tick 0 [freshLineData (fun _ => 7)]).map
      (fun ld => ld.producerCalls) = [2] ∧
    (animation_tick 0 [freshLineData (fun _ => 7)]).map
      (fun ld => ld.y_data) = [[7, 7]] := by
  decide

/-- Claim C9: attaching a handler for an already-registered stream name is
claimed to raise immediately.  Notifier._create_logger can never raise: it
performs its hasHandlers check on the Logger object it has just constructed,
which always has an empty handler list, so the duplicate-handler ValueError
is unreachable for every stream name, including a repeated registration of
cpu.log. -/
theorem create_logger_never_raises :
    (∀ file_name, createLoggerRaises file_name = false) ∧
    createLoggerRaises "cpu.log" = false :=
  ⟨fun _ => rfl, rfl⟩

/-- Claim C10: a log target containing a slash is routed to the stream
obtained by stripping everything up to and including the FIRST slash; hence
logs/cpu.log and cpu.log resolve to the same stream, and any two paths that
agree after their first slash share one destination. -/
theorem resolveStream_strips_through_first_slash (a b : List Char)
    (h : '/' ∉ a) :
    resolveStream (String.mk (a ++ '/' :: b)) = String.mk b ∧
    resolveStream "logs/cpu.log" = "cpu.log" ∧
    resolveStream "cpu.log" = "cpu.log" := by
  refine ⟨?_, by decide, by decide⟩
  have hmem : '/' ∈ a ++ '/' :: b := List.mem_append_right a (List.mem_cons_self _ _)
  have hcontains : (String.mk (a ++ '/' :: b)).toList.contains '/' = true := by
    simp [String.toList, hmem]
  simp only [resolveStream, hcontains, if_true]
  exact congrArg String.mk (afterFirstSlash_append a b h)

/-- Witness for C10 at a = logs, b = cpu.log. -/
theorem resolveStream_strips_through_first_slash_witness :
    resolveStream (String.mk ("logs".toList ++ '/' :: "cpu.log".toList)) =
      String.mk "cpu.log".toList ∧
    resolveStream "logs/cpu.log" = "cpu.log" ∧
    resolveStream "cpu.log" = "cpu.log" :=
  resolveStream_strips_through_first_slash "logs".toList "cpu.log".toList (by decide)

/-- Claim C7: each batch entry is formatted as label, colon-space, value,
unit; a multi-valued supplier result is joined with the separator, each
sub-value paired with its positional unit and sub-values past the end of the
unit tuple getting no unit; and the two-entry CPU/RAM scenario composes to
exactly the expected message. -/
theorem periodic_message_formats (label render u u0 : String)
    (renders rest : List String) (lp1 lp2 : String) :
    sub_message
      { message := label, supplied := .scalar render, log_path := lp1,
        unit := .ustr u } = label ++ ": " ++ render ++ u ∧
    sub_message
      { message := label, supplied := .coll renders, log_path := lp2,
        unit := .utup u0 rest } =
      label ++ ": " ++ String.intercalate " - "
        (renders.enum.map (fun p => p.2 ++ (u0 :: rest).getD p.1 "")) ∧
    (create_periodic_message [cpuInfo, ramInfo]).1 =
      "CPU: 42%\nRAM: 3.2GB - 1.1GB\n" := by
  refine ⟨?_, ?_, by decide⟩
  · by_cases hu : u = ""
    · subst hu
      simp [sub_message, collapseTupleUnit, unitRenderIfTruthy, unitTruthy,
        String.append_empty]
    · simp [sub_message, collapseTupleUnit, unitRenderIfTruthy, unitTruthy, hu]
  · have hfun : ∀ p : Nat × String,
        (p.2 ++ (if unitTruthy (UnitSpec.utup u0 rest) ∧
                   p.1 < unitLen (UnitSpec.utup u0 rest)
                 then unitIndex (UnitSpec.utup u0 rest) p.1 else "")) =
        p.2 ++ (u0 :: rest).getD p.1 "" := by
      intro p
      by_cases hp : p.1 < rest.length + 1
      · rw [if_pos ⟨rfl, hp⟩]
        rfl
      · rw [if_neg (fun hc => hp hc.2), List.getD_eq_default _ _ (Nat.le_of_not_lt hp)]
    have hmap :
        renders.enum.map (fun p =>
          p.2 ++ (if unitTruthy (UnitSpec.utup u0 rest) ∧
                    p.1 < unitLen (UnitSpec.utup u0 rest)
                  then unitIndex (UnitSpec.utup u0 rest) p.1 else "")) =
        renders.enum.map (fun p => p.2 ++ (u0 :: rest).getD p.1 "") :=
      List.map_congr_left (fun p _ => hfun p)
    simp only [sub_message, hmap]

/-- Folding one more record operation. -/
theorem bufferAfter_append (C : Nat) (l : List α) (a : α) :
    bufferAfter C (l ++ [a]) = recordEvict C (bufferAfter C l) a := by
  simp [bufferAfter, List.foldl_append]

/-- After any sequence of record operations from an empty buffer, the buffer
holds exactly the most recent C samples in insertion order. -/
theorem bufferAfter_eq (C : Nat) (l : List α) :
    bufferAfter C l = l.drop (l.length - C) := by
  induction l using List.reverseRecOn with
  | nil => simp [bufferAfter]
  | append_singleton l a ih =>
    rw [bufferAfter_append, ih]
    simp only [recordEvict, List.length_append, List.length_cons, List.length_nil,
      List.length_drop]
    by_cases h : l.length < C
    · rw [if_neg (by omega)]
      have h0 : l.length - C = 0 := by omega
      have h1 : l.length + (0 + 1) - C = 0 := by omega
      rw [h0, h1]
      simp
    · rw [if_pos (by omega)]
      rw [← List.drop_one, List.drop_append_eq_append_drop,
        List.drop_append_eq_append_drop, List.drop_drop, List.length_drop]
      congr 1
      · congr 1
        omega
      · congr 1
        omega

/-- The buffer length after n record operations is min n C. -/
theorem bufferAfter_length (C : Nat) (l : List α) :
    (bufferAfter C l).length = min l.length C := by
  rw [bufferAfter_eq, List.length_drop]
  omega

/-- Claim C5: after any n record operations on a buffer of capacity C the
buffer holds exactly min(n, C) samples, namely the most recently recorded
ones in insertion order; update_line_data performs exactly this record step
with capacity 15 on its x buffer; and in the concrete scenario (capacity 15,
records at t = 0..20 with value t) the buffer ends holding 6..20 in order
with recomputed range (6, 20). -/
theorem buffer_keeps_most_recent {α : Type} (l : List α) (C : Nat)
    (now : ℚ) (ld : LineData) :
    ((bufferAfter C l).length = min l.length C ∧
      bufferAfter C l = l.drop (l.length - C)) ∧
    (update_line_data now ld).x_data =
      recordEvict 15 ld.x_data (now - ld.first_iteration_timestamp.getD now) ∧
    c5Run.y_data = [6, 7, 8, 9, 10, 11, 12, 13, 14, 15, 16, 17, 18, 19, 20] ∧
    c5Run.y_lim = some (6, 20) :=
  ⟨⟨bufferAfter_length C l, bufferAfter_eq C l⟩, rfl, by decide, by decide⟩

/-- Every fire time of the polling loop is at or after the start time
(with a nonnegative poll interval, time only moves forward). -/
theorem condLoop_start_le (condition : ℚ → Bool) (check delay : ℚ)
    (temporary : Bool) (hcheck : 0 ≤ check) :
    ∀ (fuel : Nat) (t0 x : ℚ),
      x ∈ condLoop condition check delay temporary fuel t0 → t0 ≤ x := by
  intro fuel
  induction fuel with
  | zero => intro t0 x hx; simp [condLoop] at hx
  | succ n ih =>
    intro t0 x hx
    simp only [condLoop] at hx
    by_cases hc : condition t0
    · rw [if_pos hc] at hx
      by_cases ht : temporary
      · rw [if_pos ht] at hx
        rcases List.mem_singleton.mp hx with rfl
        exact le_refl x
      · rw [if_neg ht] at hx
        rcases List.mem_cons.mp hx with rfl | h2
        · exact le_refl x
        · have hrec := ih _ _ h2
          have hmax : (0 : ℚ) ≤ max (delay - check) 0 := le_max_right _ _
          linarith
    · rw [if_neg hc] at hx
      have hrec := ih _ _ hx
      linarith

/-- Claim C2: a one-shot (temporary) watch fires at most once over its whole
lifetime, and for a repeating watch any two consecutive fires are separated
by at least delay_interval (after a fire the loop sleeps
delay_interval - check_interval, clamped at zero, followed by the common
check_interval sleep). -/
theorem watch_oneshot_and_rearm (condition : ℚ → Bool) (check delay : ℚ)
    (fuel : Nat) (t0 : ℚ) (hcheck : 0 ≤ check) :
    (condLoop condition check delay true fuel t0).length ≤ 1 ∧
    (condLoop condition check delay false fuel t0).Chain'
      (fun a b => a + delay ≤ b) := by
  constructor
  · induction fuel generalizing t0 with
    | zero => simp [condLoop]
    | succ n ih =>
      simp only [condLoop]
      by_cases hc : condition t0
      · rw [if_pos hc]
        simp
      · rw [if_neg hc]
        exact ih _
  · induction fuel generalizing t0 with
    | zero => simp [condLoop]
    | succ n ih =>
      simp only [condLoop]
      by_cases hc : condition t0
      · rw [if_pos hc, if_neg (by simp)]
        refine List.chain'_cons'.mpr ⟨?_, ih _⟩
        intro b hb
        have hmem := List.mem_of_mem_head? hb
        have hstart := condLoop_start_le condition check delay false hcheck _ _ _ hmem
        have hmax : delay - check ≤ max (delay - check) 0 := le_max_left _ _
        linarith
      · rw [if_neg hc]
        exact ih _

/-- Witness for C2 at a concrete always-true predicate with check_interval 1,
delay_interval 20 and three loop iterations. -/
theorem watch_oneshot_and_rearm_witness :
    (condLoop (fun _ => true) 1 20 true 3 0).length ≤ 1 ∧
    (condLoop (fun _ => true) 1 20 false 3 0).Chain'
      (fun a b => a + 20 ≤ b) :=
  watch_oneshot_and_rearm (fun _ => true) 1 20 3 0 (by norm_num)

/-- Claim C1, as stated, is false on the code: armed via
create_conditional_notification with check_interval 1 and a predicate that
becomes true at T = 1 and stays true, the watch fires already at time 1,
strictly earlier than T + W - check_interval = 2 for the debounce window
W = 2 that the specification attributes to alert watches. -/
theorem watch_fires_without_debounce :
    (condLoop c1cond 1 20 false 5 0).head? = some 1 ∧ (1 : ℚ) < 1 + 2 - 1 := by
  constructor
  · norm_num [condLoop, c1cond]
  · norm_num

/-- Claim C1 (amended): create_conditional_notification has no debounce
window at all: when the predicate is false at the first k poll times and
true at the k-th poll time, the watch fires exactly at that first true poll
time, with no requirement that the predicate has been continuously true for
any window, and a false evaluation merely postpones firing to the next true
poll. -/
theorem watch_fires_at_first_true_poll (condition : ℚ → Bool)
    (check delay : ℚ) (temporary : Bool) (k fuel : Nat) (t0 : ℚ)
    (hk : k < fuel)
    (hbefore : ∀ j, j < k → condition (t0 + (j : ℚ) * check) = false)
    (htrue : condition (t0 + (k : ℚ) * check) = true) :
    (condLoop condition check delay temporary fuel t0).head? =
      some (t0 + (k : ℚ) * check) := by
  induction k generalizing fuel t0 with
  | zero =>
    obtain ⟨m, rfl⟩ : ∃ m, fuel = m + 1 := ⟨fuel - 1, by omega⟩
    have h0 : condition t0 = true := by
      have h := htrue
      rw [show t0 + ((0 : ℕ) : ℚ) * check = t0 by push_cast; ring] at h
      exact h
    rw [show t0 + ((0 : ℕ) : ℚ) * check = t0 by push_cast; ring]
    simp only [condLoop, if_pos h0]
    by_cases ht : temporary
    · rw [if_pos ht]
      rfl
    · rw [if_neg ht]
      rfl
  | succ k ih =>
    obtain ⟨m, rfl⟩ : ∃ m, fuel = m + 1 := ⟨fuel - 1, by omega⟩
    have h0 : condition t0 = false := by
      have h := hbefore 0 (Nat.succ_pos k)
      rw [show t0 + ((0 : ℕ) : ℚ) * check = t0 by push_cast; ring] at h
      exact h
    have hne : ¬ condition t0 = true := by
      rw [h0]
      exact Bool.false_ne_true
    simp only [condLoop]
    rw [if_neg hne]
    rw [show t0 + ((k + 1 : ℕ) : ℚ) * check = t0 + check + (k : ℚ) * check by
      push_cast; ring]
    apply ih m (t0 + check) (by omega)
    · intro j hj
      have h := hbefore (j + 1) (Nat.succ_lt_succ hj)
      rw [show t0 + ((j + 1 : ℕ) : ℚ) * check = t0 + check + (j : ℚ) * check by
        push_cast; ring] at h
      exact h
    · have h := htrue
      rw [show t0 + ((k + 1 : ℕ) : ℚ) * check = t0 + check + (k : ℚ) * check by
        push_cast; ring] at h
      exact h

/-- Witness for the amended C1: the scenario predicate is false at poll time
0 and true at poll time 1, and the watch indeed fires at poll time 1. -/
theorem watch_fires_at_first_true_poll_witness :
    (condLoop c1cond 1 20 false 5 0).head? = some (0 + ((1 : ℕ) : ℚ) * 1) :=
  watch_fires_at_first_true_poll c1cond 1 20 false 1 5 0 (by norm_num)
    (by
      intro j hj
      have hj0 : j = 0 := by omega
      subst hj0
      simp only [c1cond, decide_eq_false_iff_not]
      push_cast
      norm_num)
    (by
      simp only [c1cond, decide_eq_true_eq]
      push_cast
      norm_num)

/-- A step never revives a dead loop thread. -/
theorem SchedStep.keeps_dead {s s₁ : SchedState} {e : SchedEvent}
    (hstep : SchedStep s e s₁) (h : s.loopAlive = false) :
    s₁.loopAlive = false := by
  cases hstep <;> simp_all

/-- Once the loop thread is dead, no fire event can occur any more. -/
theorem SchedExec.no_fire_of_dead {s s₂ : SchedState} {tr : List SchedEvent}
    (hexec : SchedExec s tr s₂) (h : s.loopAlive = false) :
    SchedEvent.fire ∉ tr := by
  induction hexec with
  | nil => simp
  | cons hstep hrest ih =>
    intro hmem
    rcases List.mem_cons.mp hmem with heq | hmem2
    · subst heq
      cases hstep with
      | fire halive => rw [h] at halive; exact Bool.false_ne_true halive
    · exact ih (SchedStep.keeps_dead hstep h) hmem2

/-- An execution splits at any designated event of its trace. -/
theorem SchedExec.split {s s₂ : SchedState} (pre : List SchedEvent)
    (e : SchedEvent) (post : List SchedEvent)
    (hexec : SchedExec s (pre ++ e :: post) s₂) :
    ∃ sa sb, SchedExec s pre sa ∧ SchedStep sa e sb ∧ SchedExec sb post s₂ := by
  induction pre generalizing s with
  | nil =>
    cases hexec with
    | cons hstep hrest => exact ⟨s, _, SchedExec.nil s, hstep, hrest⟩
  | cons e0 pre ih =>
    cases hexec with
    | cons hstep hrest =>
      obtain ⟨sa, sb, h1, h2, h3⟩ := ih hrest
      exact ⟨sa, sb, SchedExec.cons hstep h1, h2, h3⟩

/-- When join returns, the loop thread is dead. -/
theorem SchedStep.dead_after_stopReturned {s s₁ : SchedState}
    (hstep : SchedStep s SchedEvent.stopReturned s₁) :
    s₁.loopAlive = false := by
  cases hstep
  assumption

/-- Claim C3: Notifier.stop marshals loop.stop() into the scheduler loop and
blocks in self._thread.join() until the loop thread has terminated; in every
execution of the shutdown protocol, once stop has returned no watch fires
any more (no notification delivery and no log append), including watches
that were mid-evaluation when stop was called (fires between the stop call
and the loop exit are still permitted by the model, fires after the join
returned are impossible). -/
theorem no_fire_after_stop_returns (tr : List SchedEvent) (sEnd : SchedState)
    (hexec : SchedExec schedInit tr sEnd) (pre post : List SchedEvent)
    (hsplit : tr = pre ++ SchedEvent.stopReturned :: post) :
    SchedEvent.fire ∉ post := by
  subst hsplit
  obtain ⟨sa, sb, h1, h2, h3⟩ := SchedExec.split pre _ post hexec
  exact SchedExec.no_fire_of_dead h3 (SchedStep.dead_after_stopReturned h2)

/-- Witness for C3: a concrete execution in which a watch fires, stop is
called, the loop drains and exits, join returns, and a second join-return
style query happens afterwards; no fire occurs after the first stop
return. -/
theorem no_fire_after_stop_returns_witness :
    SchedEvent.fire ∉ [SchedEvent.stopReturned] :=
  no_fire_after_stop_returns
    [SchedEvent.fire, SchedEvent.stopCalled, SchedEvent.loopExited,
      SchedEvent.stopReturned, SchedEvent.stopReturned]
    { loopAlive := false, stopRequested := true }
    (SchedExec.cons (SchedStep.fire schedInit rfl)
      (SchedExec.cons (SchedStep.stopCalled schedInit)
        (SchedExec.cons (SchedStep.loopExited _ rfl rfl)
          (SchedExec.cons (SchedStep.stopReturned _ rfl)
            (SchedExec.cons (SchedStep.stopReturned _ rfl)
              (SchedExec.nil _))))))
    [SchedEvent.fire, SchedEvent.stopCalled, SchedEvent.loopExited]
    [SchedEvent.stopReturned] rfl

/-- The keys of a modelled Python dict, in order. -/
def keyList (d : List (String × String)) : List String := d.map Prod.fst

/-- A dict assignment leaves the key list unchanged when the key is present
and appends the key otherwise. -/
theorem keyList_dictInsert (d : List (String × String)) (k v : String) :
    keyList (dictInsert d k v) =
      if k ∈ keyList d then keyList d else keyList d ++ [k] := by
  by_cases hmem : k ∈ keyList d
  · obtain ⟨p, hp, hpk⟩ := List.mem_map.mp hmem
    have hany : d.any (fun p => p.1 == k) = true :=
      List.any_eq_true.mpr ⟨p, hp, beq_iff_eq.mpr hpk⟩
    rw [if_pos hmem]
    simp only [dictInsert, hany, if_true, keyList, List.map_map]
    apply List.map_congr_left
    intro q hq
    by_cases hqk : q.1 = k
    · simp [hqk]
    · simp [hqk]
  · have hany : d.any (fun p => p.1 == k) = false := by
      rw [List.any_eq_false]
      intro p hp
      simp only [beq_iff_eq]
      intro hpk
      exact hmem (List.mem_map.mpr ⟨p, hp, hpk⟩)
    rw [if_neg hmem]
    simp [dictInsert, hany, keyList]

/-- A dict assignment preserves distinctness of the keys. -/
theorem keyList_dictInsert_nodup (d : List (String × String)) (k v : String)
    (h : (keyList d).Nodup) : (keyList (dictInsert d k v)).Nodup := by
  rw [keyList_dictInsert]
  by_cases hmem : k ∈ keyList d
  · rwa [if_pos hmem]
  · rw [if_neg hmem]
    simp [List.nodup_append, h, hmem]

/-- The key set after a dict assignment is the old key set plus the key. -/
theorem keyList_dictInsert_toFinset (d : List (String × String)) (k v : String) :
    (keyList (dictInsert d k v)).toFinset = insert k (keyList d).toFinset := by
  rw [keyList_dictInsert]
  by_cases hmem : k ∈ keyList d
  · rw [if_pos hmem]
    exact (Finset.insert_eq_self.mpr (List.mem_toFinset.mpr hmem)).symm
  · rw [if_neg hmem]
    simp [List.toFinset_append, Finset.insert_eq, Finset.union_comm]

/-- The size of a dict built by repeated assignment is the number of
distinct keys assigned (plus the initial distinct keys). -/
theorem foldl_dictInsert_length (ps : List (String × String)) :
    ∀ d, (keyList d).Nodup →
      (List.foldl (fun acc p => dictInsert acc p.1 p.2) d ps).length =
        ((keyList d).toFinset ∪ (ps.map Prod.fst).toFinset).card := by
  induction ps with
  | nil =>
    intro d h
    have hlen : d.length = (keyList d).length := (List.length_map d Prod.fst).symm
    simp only [List.foldl_nil, List.map_nil, List.toFinset_nil,
      Finset.union_empty]
    rw [hlen, ← List.toFinset_card_of_nodup h]
  | cons p ps ih =>
    intro d h
    simp only [List.foldl_cons]
    rw [ih (dictInsert d p.1 p.2) (keyList_dictInsert_nodup d p.1 p.2 h),
      keyList_dictInsert_toFinset]
    simp [List.toFinset_cons, Finset.insert_union, Finset.union_insert]

/-- The _data_dict component of _create_periodic_message is the fold of
plain dict assignments over the entries with a truthy log_path. -/
theorem periodic_fold_snd (data : List DumpInfo) :
    ∀ (m : String) (d : List (String × String)),
      (List.foldl
        (fun acc info =>
          let sub := sub_message info
          (acc.1 ++ sub ++ "\n",
           if info.log_path.isEmpty then acc.2 else dictInsert acc.2 sub info.log_path))
        (m, d) data).2 =
      List.foldl (fun acc p => dictInsert acc p.1 p.2) d
        ((data.filter (fun i => !i.log_path.isEmpty)).map
          (fun i => (sub_message i, i.log_path))) := by
  induction data with
  | nil => intro m d; rfl
  | cons info rest ih =>
    intro m d
    simp only [List.foldl_cons]
    by_cases hlp : info.log_path.isEmpty
    · rw [List.filter_cons_of_neg (by simp [hlp])]
      simpa [hlp] using ih _ _
    · rw [List.filter_cons_of_pos (by simp [hlp])]
      simpa [hlp] using ih _ _

/-- Membership in an insert-if-absent key fold: exactly the keys of the
accumulator and of the assigned list. -/
theorem mem_firstKeys_fold (ks : List String) :
    ∀ (acc : List String) (k : String),
      (k ∈ ks.foldl (fun a x => if x ∈ a then a else a ++ [x]) acc) ↔
        (k ∈ acc ∨ k ∈ ks) := by
  induction ks with
  | nil => intro acc k; simp
  | cons k0 ks ih =>
    intro acc k
    simp only [List.foldl_cons]
    rw [ih]
    by_cases h0 : k0 ∈ acc
    · rw [if_pos h0]
      constructor
      · rintro (h | h)
        · exact Or.inl h
        · exact Or.inr (List.mem_cons_of_mem _ h)
      · rintro (h | h)
        · exact Or.inl h
        · rcases List.mem_cons.mp h with rfl | h
          · exact Or.inl h0
          · exact Or.inr h
    · rw [if_neg h0]
      constructor
      · rintro (h | h)
        · rcases List.mem_append.mp h with h | h
          · exact Or.inl h
          · rcases List.mem_singleton.mp h with rfl
            exact Or.inr (List.mem_cons_self _ _)
        · exact Or.inr (List.mem_cons_of_mem _ h)
      · rintro (h | h)
        · exact Or.inl (List.mem_append_left _ h)
        · rcases List.mem_cons.mp h with rfl | h
          · exact Or.inl (List.mem_append_right _ (List.mem_singleton_self _))
          · exact Or.inr h

/-- A key occurs among the first-assignment keys exactly when it was
assigned at all. -/
theorem mem_firstKeys (ks : List String) (k : String) :
    k ∈ firstKeys ks ↔ k ∈ ks := by
  rw [firstKeys, mem_firstKeys_fold]
  simp

/-- One more assignment extends the ordered key list exactly when the key is
new. -/
theorem firstKeys_append (ks : List String) (k : String) :
    firstKeys (ks ++ [k]) =
      if k ∈ firstKeys ks then firstKeys ks else firstKeys ks ++ [k] := by
  simp [firstKeys, List.foldl_append]

/-- One more assignment updates the last-assigned value for its own key and
leaves every other key untouched. -/
theorem lastValue_append (ps : List (String × String)) (p : String × String)
    (k : String) :
    lastValue (ps ++ [p]) k = if p.1 = k then some p.2 else lastValue ps k := by
  by_cases h : p.1 = k
  · rw [if_pos h]
    simp [lastValue, List.filter_append, h]
  · rw [if_neg h]
    simp [lastValue, List.filter_append, h]

/-- The dict built by a sequence of assignments, in full: its entries are
the assigned keys in order of first assignment, each carrying the value of
the LAST assignment to that key. -/
theorem foldl_dictInsert_model (ps : List (String × String)) :
    List.foldl (fun acc p => dictInsert acc p.1 p.2) [] ps =
      (firstKeys (ps.map Prod.fst)).map
        (fun k => (k, (lastValue ps k).getD "")) := by
  induction ps using List.reverseRecOn with
  | nil => rfl
  | append_singleton ps p ih =>
    rw [List.foldl_append, List.foldl_cons, List.foldl_nil, ih, List.map_append,
      List.map_cons, List.map_nil, firstKeys_append]
    by_cases hmem : p.1 ∈ firstKeys (ps.map Prod.fst)
    · rw [if_pos hmem]
      have hany : (List.map (fun k => (k, (lastValue ps k).getD ""))
          (firstKeys (ps.map Prod.fst))).any (fun q => q.1 == p.1) = true :=
        List.any_eq_true.mpr
          ⟨(p.1, (lastValue ps p.1).getD ""),
            List.mem_map.mpr ⟨p.1, hmem, rfl⟩, beq_iff_eq.mpr rfl⟩
      simp only [dictInsert, hany, if_true, List.map_map]
      apply List.map_congr_left
      intro k hk
      by_cases hkp : k = p.1
      · subst hkp
        simp [lastValue_append]
      · have hne : ¬ p.1 = k := fun hcontra => hkp hcontra.symm
        simp [lastValue_append, hkp, hne]
    · rw [if_neg hmem]
      have hany : (List.map (fun k => (k, (lastValue ps k).getD ""))
          (firstKeys (ps.map Prod.fst))).any (fun q => q.1 == p.1) = false := by
        rw [List.any_eq_false]
        intro q hq
        obtain ⟨k, hk, rfl⟩ := List.mem_map.mp hq
        simp only [beq_iff_eq]
        intro hkp
        exact hmem (hkp ▸ hk)
      simp only [dictInsert, hany, Bool.false_eq_true, if_false, List.map_append,
        List.map_cons, List.map_nil]
      congr 1
      · apply List.map_congr_left
        intro k hk
        have hne : ¬ p.1 = k := fun hcontra => hmem (hcontra ▸ hk)
        simp [lastValue_append, hne]
      · simp [lastValue_append]

/-- Claim C8, as stated, is false on the code: a batch of two identical
DumpInfo entries, both with the non-empty log target cpu.log, produces ONE
log line on a fire rather than one line per entry, because the shared
_data_dict is keyed by the formatted sub-message. -/
theorem fire_collapses_identical_messages :
    (fire_log_lines [cpuLogged, cpuLogged]).length = 1 ∧
    ([cpuLogged, cpuLogged].filter (fun i => !i.log_path.isEmpty)).length = 2 ∧
    (fire_log_lines [cpuLogged, cpuLogged]).length ≠
      ([cpuLogged, cpuLogged].filter (fun i => !i.log_path.isEmpty)).length := by
  refine ⟨by decide, by decide, by decide⟩

/-- Claim C8 (amended): on each fire of a periodic dispatch the written log
lines are exactly one per DISTINCT formatted sub-message among the DumpInfo
entries of the batch with a non-empty log target, in order of first
occurrence; each line carries that sub-message and is routed to the stream
resolved from the LAST such entry's log target (identically formatted
entries collapse into one dict entry, the later entry's target overwriting
the recorded one); entries with an empty log target produce no line. -/
theorem fire_one_log_line_per_distinct_message (data : List DumpInfo) :
    fire_log_lines data =
      (firstKeys ((eligiblePairs data).map Prod.fst)).map
        (fun msg =>
          (resolveStream ((lastValue (eligiblePairs data) msg).getD ""), msg)) ∧
    (fire_log_lines data).length =
      ((data.filter (fun i => !i.log_path.isEmpty)).map sub_message).toFinset.card := by
  constructor
  · rw [fire_log_lines, create_periodic_message, periodic_fold_snd data "" []]
    rw [show (data.filter (fun i => !i.log_path.isEmpty)).map
        (fun i => (sub_message i, i.log_path)) = eligiblePairs data from rfl]
    rw [foldl_dictInsert_model, List.map_map]
    rfl
  · rw [fire_log_lines, List.length_map, create_periodic_message,
      periodic_fold_snd data "" [],
      foldl_dictInsert_length _ [] (by simp [keyList])]
    simp only [keyList, List.map_nil, List.toFinset_nil, Finset.empty_union,
      List.map_map]
    have hcomp : (Prod.fst ∘ fun i : DumpInfo => (sub_message i, i.log_path)) =
        sub_message := by
      funext i
      rfl
    rw [hcomp]
